import Mathlib

/-!
Verification development for the drive_clean repository's analysis core
(`drive_analyzer_local.py`).  The Python code is shallowly embedded:

* an `Entry` is one snapshot record.  `size` holds the already-coerced
  integer byte count (`load_data` turns the raw string into an `int`,
  unparseable values into `0`); `createdTime` holds the parsed, naive
  timestamp as epoch seconds (the source strips the trailing `Z` and
  parses with `fromisoformat`); an absent `parents` key and an empty
  list are both the empty list, matching `item.get('parents', [])`.
* Python dicts are embedded as association lists with the dict's
  insertion-order semantics; `defaultdict(list)` appends are explicit
  association-list updates.
* `datetime` arithmetic is embedded as integer seconds;
  `(now - created).days` is floor division by 86400.
* recursive procedures that the source does not guard (tree printing,
  HTML generation) are embedded with an explicit fuel argument where
  `none` means the computation did not finish within the given fuel;
  a result of `none` for every fuel is non-termination of the source.
-/

/-- Sentinel MIME type denoting a folder. -/
def folderMime : String := "application/vnd.google-apps.folder"

/-- One snapshot record, after `load_data`'s size coercion. -/
structure Entry where
  id : String
  name : String
  mimeType : Option String
  size : Option Nat
  createdTime : Option Int
  parents : List String
deriving DecidableEq, Repr

/-- `file.get('mimeType') == 'application/vnd.google-apps.folder'`. -/
def isFolder (e : Entry) : Bool := e.mimeType == some folderMime

/-- The `self.folders` list: entries whose MIME type is the folder sentinel. -/
def foldersOf (entries : List Entry) : List Entry := entries.filter isFolder

/-- Lookup in `self.folder_map = {folder['id']: folder for folder in self.folders}`:
a Python dict comprehension is last-write-wins, so we search the reversed list. -/
def folderLookup (folders : List Entry) (fid : String) : Option Entry :=
  folders.reverse.find? (fun f => f.id == fid)

/-- First-occurrence deduplication, i.e. the key order of a Python dict
built by successive insertions. -/
def keyOrderAux [DecidableEq α] (seen : List α) : List α → List α
  | [] => []
  | x :: xs => if x ∈ seen then keyOrderAux seen xs else x :: keyOrderAux (x :: seen) xs

def keyOrder [DecidableEq α] (l : List α) : List α := keyOrderAux [] l

/-- The ids of known folders (`self.folder_map.keys()` in insertion order). -/
def folderIds (entries : List Entry) : List String :=
  keyOrder ((foldersOf entries).map (fun f => f.id))

/-- `self.root_folders`: known folders with a falsy (empty) parents list. -/
def rootFolders (entries : List Entry) : List Entry :=
  (folderIds entries).filterMap (fun fid =>
    match folderLookup (foldersOf entries) fid with
    | none => none
    | some f =>
      if f.parents = [] then some f else none)

/-- `self.orphan_folders`: known folders with a nonempty parents list none of
whose members is a key of `folder_map`
(`elif not any(parent in self.folder_map for parent in folder.get('parents', []))`). -/
def orphanFolders (entries : List Entry) : List Entry :=
  (folderIds entries).filterMap (fun fid =>
    match folderLookup (foldersOf entries) fid with
    | none => none
    | some f =>
      if f.parents = [] then none
      else if f.parents.all (fun p => (folderLookup (foldersOf entries) p).isNone)
      then some f else none)

/-- Helper constructor for test folders. -/
def mkFolder (fid nm : String) (ps : List String) : Entry :=
  ⟨fid, nm, some folderMime, none, none, ps⟩

/-- Helper constructor for test files. -/
def mkFile (fid nm : String) (ps : List String) (sz : Option Nat) (ct : Option Int) : Entry :=
  ⟨fid, nm, none, sz, ct, ps⟩

section KeyOrderLemmas

variable {α : Type} [DecidableEq α]

theorem mem_keyOrderAux {x : α} : ∀ (l seen : List α),
    x ∈ keyOrderAux seen l ↔ x ∈ l ∧ x ∉ seen := by
  intro l
  induction l with
  | nil => intro seen; simp [keyOrderAux]
  | cons a l ih =>
    intro seen
    by_cases ha : a ∈ seen
    · simp only [keyOrderAux, if_pos ha, ih, List.mem_cons]
      constructor
      · rintro ⟨hx, hns⟩; exact ⟨Or.inr hx, hns⟩
      · rintro ⟨hx | hx, hns⟩
        · subst hx; exact absurd ha hns
        · exact ⟨hx, hns⟩
    · simp only [keyOrderAux, if_neg ha, ih, List.mem_cons]
      constructor
      · rintro (rfl | ⟨hx, hns⟩)
        · exact ⟨Or.inl rfl, ha⟩
        · exact ⟨Or.inr hx, fun hc => hns (Or.inr hc)⟩
      · rintro ⟨rfl | hx, hns⟩
        · exact Or.inl rfl
        · by_cases hxa : x = a
          · exact Or.inl hxa
          · exact Or.inr ⟨hx, fun hc => hc.elim hxa hns⟩

theorem mem_keyOrder {x : α} {l : List α} : x ∈ keyOrder l ↔ x ∈ l := by
  unfold keyOrder
  rw [mem_keyOrderAux]
  simp

end KeyOrderLemmas

theorem folderLookup_id {folders : List Entry} {fid : String} {f : Entry}
    (h : folderLookup folders fid = some f) : f.id = fid ∧ f ∈ folders := by
  unfold folderLookup at h
  have hp := List.find?_some h
  have hm := List.mem_of_find?_eq_some h
  rw [List.mem_reverse] at hm
  exact ⟨by simpa using hp, hm⟩

theorem folderLookup_isSome_of_mem {folders : List Entry} {f : Entry}
    (h : f ∈ folders) : (folderLookup folders f.id).isSome := by
  unfold folderLookup
  rw [List.find?_isSome]
  exact ⟨f, List.mem_reverse.mpr h, by simp⟩

theorem mem_folderIds {entries : List Entry} {fid : String} :
    fid ∈ folderIds entries ↔ fid ∈ (foldersOf entries).map (fun f => f.id) := by
  unfold folderIds
  exact mem_keyOrder

theorem mem_rootFolders_iff {entries : List Entry} {f : Entry} :
    f ∈ rootFolders entries ↔
      folderLookup (foldersOf entries) f.id = some f ∧ f.parents = [] := by
  unfold rootFolders
  rw [List.mem_filterMap]
  constructor
  · rintro ⟨fid, _, hsome⟩
    cases h : folderLookup (foldersOf entries) fid with
    | none => rw [h] at hsome; simp at hsome
    | some g =>
      rw [h] at hsome
      dsimp only at hsome
      by_cases hp : g.parents = []
      · rw [if_pos hp] at hsome
        obtain rfl : g = f := by simpa using hsome
        have hid := (folderLookup_id h).1
        rw [hid]
        exact ⟨h, hp⟩
      · rw [if_neg hp] at hsome; simp at hsome
  · rintro ⟨hl, hp⟩
    refine ⟨f.id, ?_, ?_⟩
    · rw [mem_folderIds]
      exact List.mem_map_of_mem _ (folderLookup_id hl).2
    · rw [hl]
      dsimp only
      rw [if_pos hp]

theorem mem_orphanFolders_iff {entries : List Entry} {f : Entry} :
    f ∈ orphanFolders entries ↔
      folderLookup (foldersOf entries) f.id = some f ∧ f.parents ≠ [] ∧
        ∀ p ∈ f.parents, folderLookup (foldersOf entries) p = none := by
  unfold orphanFolders
  rw [List.mem_filterMap]
  constructor
  · rintro ⟨fid, _, hsome⟩
    cases h : folderLookup (foldersOf entries) fid with
    | none => rw [h] at hsome; simp at hsome
    | some g =>
      rw [h] at hsome
      dsimp only at hsome
      by_cases hp : g.parents = []
      · rw [if_pos hp] at hsome; simp at hsome
      · rw [if_neg hp] at hsome
        by_cases hall : g.parents.all (fun p => (folderLookup (foldersOf entries) p).isNone)
        · rw [if_pos hall] at hsome
          obtain rfl : g = f := by simpa using hsome
          have hid := (folderLookup_id h).1
          rw [hid]
          refine ⟨h, hp, ?_⟩
          intro p hpmem
          have := (List.all_eq_true.mp hall) p hpmem
          exact Option.isNone_iff_eq_none.mp this
        · rw [if_neg hall] at hsome; simp at hsome
  · rintro ⟨hl, hp, hall⟩
    refine ⟨f.id, ?_, ?_⟩
    · rw [mem_folderIds]
      exact List.mem_map_of_mem _ (folderLookup_id hl).2
    · rw [hl]
      dsimp only
      rw [if_neg hp, if_pos ?_]
      exact List.all_eq_true.mpr fun p hm => Option.isNone_iff_eq_none.mpr (hall p hm)

/-- Counterexample snapshot for C1: folder X's first parent "bad" is unknown,
but its second parent "R" is a known folder. -/
def c1ex : List Entry := [mkFolder "R" "R" [], mkFolder "X" "X" ["bad", "R"]]

/-- C1: counterexample.  In snapshot `c1ex`, folder X is a known folder whose
first parent id "bad" is not in the folder-id set, yet the Graph Builder does
not classify X as an orphan (nor as a root): the source tests *all* listed
parents (`not any(parent in self.folder_map ...)`), not just the first one,
so the claim's "orphan exactly when its first parent id is not present" is
false on the code. -/
theorem c1_counterexample :
    folderLookup (foldersOf c1ex) "X" = some (mkFolder "X" "X" ["bad", "R"])
    ∧ (mkFolder "X" "X" ["bad", "R"]).parents.head? = some "bad"
    ∧ "bad" ∉ folderIds c1ex
    ∧ mkFolder "X" "X" ["bad", "R"] ∉ orphanFolders c1ex
    ∧ mkFolder "X" "X" ["bad", "R"] ∉ rootFolders c1ex := by decide

/-- C1 (amended): a known folder is a root exactly when its parents list is
empty, an orphan exactly when its parents list is nonempty and *none* of its
listed parent ids resolves to a known folder; a folder whose first parent
resolves is neither root nor orphan. -/
theorem c1_root_orphan_classification :
    (∀ (entries : List Entry) (f : Entry),
        f ∈ rootFolders entries ↔
          folderLookup (foldersOf entries) f.id = some f ∧ f.parents = [])
    ∧ (∀ (entries : List Entry) (f : Entry),
        f ∈ orphanFolders entries ↔
          folderLookup (foldersOf entries) f.id = some f ∧ f.parents ≠ [] ∧
            ∀ p ∈ f.parents, folderLookup (foldersOf entries) p = none)
    ∧ (∀ (entries : List Entry) (f : Entry) (p : String) (ps : List String),
        folderLookup (foldersOf entries) f.id = some f → f.parents = p :: ps →
        (folderLookup (foldersOf entries) p).isSome →
        f ∉ rootFolders entries ∧ f ∉ orphanFolders entries) := by
  refine ⟨fun _ _ => mem_rootFolders_iff, fun _ _ => mem_orphanFolders_iff, ?_⟩
  intro entries f p ps hl hp hres
  constructor
  · intro hmem
    have := (mem_rootFolders_iff.mp hmem).2
    rw [hp] at this
    exact List.cons_ne_nil _ _ this
  · intro hmem
    have hall := (mem_orphanFolders_iff.mp hmem).2.2
    have hpnone := hall p (by rw [hp]; exact List.mem_cons_self _ _)
    rw [hpnone] at hres
    simp at hres

/-- Snapshot for the C1 witness: folder Y's first parent "P" resolves. -/
def c1wex : List Entry := [mkFolder "P" "P" [], mkFolder "Y" "Y" ["P"]]

/-- C1: witness instantiating the amended theorem at a concrete input. -/
theorem c1_witness :
    mkFolder "Y" "Y" ["P"] ∉ rootFolders c1wex
    ∧ mkFolder "Y" "Y" ["P"] ∉ orphanFolders c1wex :=
  c1_root_orphan_classification.2.2 c1wex (mkFolder "Y" "Y" ["P"]) "P" []
    (by decide) (by decide) (by decide)

/-- `"/...cyclische referentie..."`, returned on revisiting a folder id. -/
def cyclicSentinel : String := "/...cyclische referentie..."

/-- `"/onbekend"`, returned for an unknown folder id. -/
def unknownSentinel : String := "/onbekend"

/-- `get_folder_path`, transcribed with an explicit fuel argument (the source
recursion needs none: the visited set strictly grows inside the known-folder
ids, which is exactly what `getFolderPath_fuel_sufficient` below proves). -/
def getFolderPathF (folders : List Entry) : Nat → String → List String → Option String
  | 0, _, _ => none
  | fuel+1, fid, visited =>
    if fid ∈ visited then some cyclicSentinel
    else
      match folderLookup folders fid with
      | none => some unknownSentinel
      | some folder =>
        match folder.parents with
        | [] => some ("/" ++ folder.name)
        | p :: _ =>
          match getFolderPathF folders fuel p (fid :: visited) with
          | none => none
          | some pp => some (pp ++ "/" ++ folder.name)

/-- Number of known folder ids not yet visited: the termination measure of
`get_folder_path`'s recursion. -/
def pathMeasure (folders : List Entry) (visited : List String) : Nat :=
  ((folders.map (fun f => f.id)).filter (fun x => x ∉ visited)).length

/-- `get_folder_path` itself: run the recursion with provably sufficient fuel. -/
def getFolderPath (folders : List Entry) (fid : String) (visited : List String) : String :=
  (getFolderPathF folders (pathMeasure folders visited + 1) fid visited).getD ""

theorem length_filter_le_of_imp {l : List String} {p q : String → Bool}
    (h : ∀ x, p x = true → q x = true) :
    (l.filter p).length ≤ (l.filter q).length := by
  induction l with
  | nil => simp
  | cons a l ih =>
    by_cases hp : p a = true
    · rw [List.filter_cons_of_pos hp, List.filter_cons_of_pos (h a hp)]
      simpa using ih
    · rw [List.filter_cons_of_neg (by simpa using hp)]
      by_cases hq : q a = true
      · rw [List.filter_cons_of_pos hq]
        exact Nat.le_succ_of_le ih
      · rw [List.filter_cons_of_neg (by simpa using hq)]
        exact ih

theorem filter_notMem_cons_lt :
    ∀ (l : List String) (visited : List String) (fid : String),
      fid ∈ l → fid ∉ visited →
      (l.filter (fun x => x ∉ (fid :: visited))).length <
        (l.filter (fun x => x ∉ visited)).length := by
  intro l
  induction l with
  | nil => intro visited fid hmem _; cases hmem
  | cons a l ih =>
    intro visited fid hmem hnv
    by_cases hax : a = fid
    · subst hax
      rw [List.filter_cons_of_neg (by simp),
        List.filter_cons_of_pos (by simp only [decide_eq_true_eq]; exact hnv)]
      refine Nat.lt_succ_of_le (length_filter_le_of_imp ?_)
      intro x hx
      simp only [decide_eq_true_eq] at hx ⊢
      intro hc
      exact hx (List.mem_cons_of_mem _ hc)
    · have hmem' : fid ∈ l := by
        rcases List.mem_cons.mp hmem with h | h
        · exact absurd h.symm hax
        · exact h
      by_cases hav : a ∈ visited
      · rw [List.filter_cons_of_neg (by simp only [decide_eq_true_eq, not_not]; exact List.mem_cons_of_mem _ hav),
          List.filter_cons_of_neg (by simp only [decide_eq_true_eq, not_not]; exact hav)]
        exact ih visited fid hmem' hnv
      · have hav' : a ∉ (fid :: visited) := by
          intro hc
          rcases List.mem_cons.mp hc with h | h
          · exact hax h
          · exact hav h
        rw [List.filter_cons_of_pos (by simp only [decide_eq_true_eq]; exact hav'),
          List.filter_cons_of_pos (by simp only [decide_eq_true_eq]; exact hav)]
        exact Nat.succ_lt_succ (ih visited fid hmem' hnv)

theorem pathMeasure_lt {folders : List Entry} {fid : String} {visited : List String}
    (hmem : fid ∈ folders.map (fun f => f.id)) (hnv : fid ∉ visited) :
    pathMeasure folders (fid :: visited) < pathMeasure folders visited := by
  unfold pathMeasure
  exact filter_notMem_cons_lt (folders.map (fun f => f.id)) visited fid hmem hnv

theorem getFolderPathF_isSome {folders : List Entry} :
    ∀ (fuel : Nat) (fid : String) (visited : List String),
      pathMeasure folders visited < fuel →
      (getFolderPathF folders fuel fid visited).isSome := by
  intro fuel
  induction fuel with
  | zero => intro fid visited h; cases h
  | succ n ih =>
    intro fid visited h
    rw [getFolderPathF]
    by_cases hv : fid ∈ visited
    · rw [if_pos hv]; rfl
    · rw [if_neg hv]
      cases hl : folderLookup folders fid with
      | none => dsimp only; rfl
      | some folder =>
        dsimp only
        cases hp : folder.parents with
        | nil => dsimp only; rfl
        | cons p ps =>
          dsimp only
          have hidm : fid ∈ folders.map (fun f => f.id) := by
            rcases folderLookup_id hl with ⟨hid, hm⟩
            rw [← hid]
            exact List.mem_map_of_mem _ hm
          have hlt := pathMeasure_lt hidm hv
          have hrec := ih p (fid :: visited) (by omega)
          cases hr : getFolderPathF folders n p (fid :: visited) with
          | none => rw [hr] at hrec; cases hrec
          | some pp => dsimp only; rfl

theorem getFolderPathF_fuel_irrel {folders : List Entry} :
    ∀ (fuelA fuelB : Nat) (fid : String) (visited : List String),
      pathMeasure folders visited < fuelA → pathMeasure folders visited < fuelB →
      getFolderPathF folders fuelA fid visited = getFolderPathF folders fuelB fid visited := by
  intro fuelA
  induction fuelA with
  | zero => intro fuelB fid visited h; cases h
  | succ a ih =>
    intro fuelB fid visited hA hB
    cases fuelB with
    | zero => cases hB
    | succ b =>
      rw [getFolderPathF, getFolderPathF]
      by_cases hv : fid ∈ visited
      · rw [if_pos hv, if_pos hv]
      · rw [if_neg hv, if_neg hv]
        cases hl : folderLookup folders fid with
        | none => rfl
        | some folder =>
          dsimp only
          cases hp : folder.parents with
          | nil => rfl
          | cons p ps =>
            dsimp only
            have hidm : fid ∈ folders.map (fun f => f.id) := by
              rcases folderLookup_id hl with ⟨hid, hm⟩
              rw [← hid]
              exact List.mem_map_of_mem _ hm
            have hlt := pathMeasure_lt hidm hv
            rw [ih b p (fid :: visited) (by omega) (by omega)]

theorem getFolderPath_fuel_sufficient {folders : List Entry}
    {fid : String} {visited : List String} {fuel : Nat}
    (h : pathMeasure folders visited < fuel) :
    getFolderPathF folders fuel fid visited = some (getFolderPath folders fid visited) := by
  unfold getFolderPath
  rw [getFolderPathF_fuel_irrel fuel (pathMeasure folders visited + 1) fid visited h
    (Nat.lt_succ_self _)]
  have hs := @getFolderPathF_isSome folders (pathMeasure folders visited + 1)
    fid visited (Nat.lt_succ_self _)
  cases hr : getFolderPathF folders (pathMeasure folders visited + 1) fid visited with
  | none => rw [hr] at hs; cases hs
  | some s => rfl

/-- Cyclic snapshot for C3: folder A's parent is B, B's parent is A. -/
def c3cyc : List Entry := [mkFolder "A" "A" ["B"], mkFolder "B" "B" ["A"]]

/-- C3: path resolution always terminates and never fails.  The fuel-indexed
transcription of `get_folder_path` succeeds (with the value of the total
function `getFolderPath`) whenever the fuel exceeds the number of unvisited
known folder ids; a revisited id yields the cyclic-reference sentinel, an
unknown id the unknown sentinel, a parentless folder `"/" ++ name`, and
otherwise the first-parent chain is followed and slash-joined.  On the
constructed cycle A→B→A the resolution terminates, the revisiting call
returning the cyclic sentinel. -/
theorem c3_path_resolution :
    (∀ (folders : List Entry) (fid : String) (visited : List String) (fuel : Nat),
        pathMeasure folders visited < fuel →
        getFolderPathF folders fuel fid visited = some (getFolderPath folders fid visited))
    ∧ (∀ (folders : List Entry) (fid : String) (visited : List String),
        fid ∈ visited → getFolderPath folders fid visited = cyclicSentinel)
    ∧ (∀ (folders : List Entry) (fid : String) (visited : List String),
        fid ∉ visited → folderLookup folders fid = none →
        getFolderPath folders fid visited = unknownSentinel)
    ∧ (∀ (folders : List Entry) (fid : String) (visited : List String) (f : Entry),
        fid ∉ visited → folderLookup folders fid = some f → f.parents = [] →
        getFolderPath folders fid visited = "/" ++ f.name)
    ∧ (∀ (folders : List Entry) (fid : String) (visited : List String) (f : Entry)
        (p : String) (ps : List String),
        fid ∉ visited → folderLookup folders fid = some f → f.parents = p :: ps →
        getFolderPath folders fid visited =
          getFolderPath folders p (fid :: visited) ++ "/" ++ f.name)
    ∧ getFolderPath (foldersOf c3cyc) "A" [] = cyclicSentinel ++ "/B" ++ "/A"
    ∧ getFolderPathF (foldersOf c3cyc) 1 "A" ["B", "A"] = some cyclicSentinel := by
  refine ⟨fun _ _ _ _ h => getFolderPath_fuel_sufficient h, ?_, ?_, ?_, ?_, by decide, by decide⟩
  · intro folders fid visited hv
    unfold getFolderPath
    rw [getFolderPathF, if_pos hv]
    rfl
  · intro folders fid visited hv hl
    unfold getFolderPath
    rw [getFolderPathF, if_neg hv, hl]
    rfl
  · intro folders fid visited f hv hl hp
    unfold getFolderPath
    rw [getFolderPathF, if_neg hv, hl]
    dsimp only
    rw [hp]
    rfl
  · intro folders fid visited f p ps hv hl hp
    have hidm : fid ∈ folders.map (fun g => g.id) := by
      rcases folderLookup_id hl with ⟨hid, hm⟩
      rw [← hid]
      exact List.mem_map_of_mem _ hm
    have hlt := pathMeasure_lt hidm hv
    conv =>
      lhs
      unfold getFolderPath
      rw [getFolderPathF, if_neg hv, hl]
    dsimp only
    rw [hp]
    dsimp only
    rw [getFolderPath_fuel_sufficient (by omega)]
    rfl

/-- C3: witness applying the theorem at a concrete snapshot and fuel. -/
theorem c3_witness :
    getFolderPathF (foldersOf c3cyc) 3 "A" [] = some (getFolderPath (foldersOf c3cyc) "A" []) :=
  c3_path_resolution.1 (foldersOf c3cyc) "A" [] 3 (by decide)

/-- Stable descending insertion: an element goes before the first element with
a strictly smaller key, so ties keep their original order — extensionally the
same list as Python's stable `sorted(..., reverse=True)`. -/
def insertDesc {α β : Type} [LinearOrder β] (key : α → β) (a : α) : List α → List α
  | [] => [a]
  | b :: l => if key b ≤ key a then a :: b :: l else b :: insertDesc key a l

/-- `sorted(l, key=key, reverse=True)` (stable, descending). -/
def sortDesc {α β : Type} [LinearOrder β] (key : α → β) (l : List α) : List α :=
  l.foldr (insertDesc key) []

/-- Stable ascending insertion. -/
def insertAsc {α β : Type} [LinearOrder β] (key : α → β) (a : α) : List α → List α
  | [] => [a]
  | b :: l => if key a ≤ key b then a :: b :: l else b :: insertAsc key a l

/-- `sorted(l, key=key)` (stable, ascending). -/
def sortAsc {α β : Type} [LinearOrder β] (key : α → β) (l : List α) : List α :=
  l.foldr (insertAsc key) []

/-- Descending-sortedness by a key. -/
def SortedDescBy {α β : Type} [LinearOrder β] (key : α → β) (l : List α) : Prop :=
  l.Pairwise (fun x y => key y ≤ key x)

section SortLemmas

variable {α β : Type} [LinearOrder β] {key : α → β}

theorem mem_insertDesc {x a : α} : ∀ {l : List α},
    x ∈ insertDesc key a l ↔ x = a ∨ x ∈ l := by
  intro l
  induction l with
  | nil => simp [insertDesc]
  | cons b l ih =>
    by_cases h : key b ≤ key a
    · simp [insertDesc, if_pos h]
    · simp only [insertDesc, if_neg h, List.mem_cons, ih]
      tauto

theorem mem_sortDesc {x : α} : ∀ {l : List α}, x ∈ sortDesc key l ↔ x ∈ l := by
  intro l
  induction l with
  | nil => simp [sortDesc]
  | cons a l ih =>
    show x ∈ insertDesc key a (sortDesc key l) ↔ _
    rw [mem_insertDesc, ih]
    simp

theorem insertDesc_sorted {a : α} : ∀ {l : List α},
    SortedDescBy key l → SortedDescBy key (insertDesc key a l) := by
  intro l
  induction l with
  | nil => intro _; simp [insertDesc, SortedDescBy]
  | cons b l ih =>
    intro h
    have hb := (List.pairwise_cons.mp h).1
    have hl := (List.pairwise_cons.mp h).2
    by_cases hba : key b ≤ key a
    · rw [insertDesc, if_pos hba]
      refine List.pairwise_cons.mpr ⟨?_, h⟩
      intro x hx
      rcases List.mem_cons.mp hx with rfl | hx
      · exact hba
      · exact le_trans (hb x hx) hba
    · rw [insertDesc, if_neg hba]
      refine List.pairwise_cons.mpr ⟨?_, ih hl⟩
      intro x hx
      rcases mem_insertDesc.mp hx with rfl | hx
      · exact le_of_lt (lt_of_not_le hba)
      · exact hb x hx

theorem sortDesc_sorted : ∀ {l : List α}, SortedDescBy key (sortDesc key l) := by
  intro l
  induction l with
  | nil => simp [sortDesc, SortedDescBy]
  | cons a l ih => exact insertDesc_sorted ih

end SortLemmas

/-- One exact-duplicate group: `{'name':…, 'size':…, 'files':…, 'count':…}`. -/
structure ExactGroup where
  name : String
  size : Nat
  files : List Entry
  count : Nat
deriving DecidableEq, Repr

/-- Non-folder entries that have a size field (the candidates of
`find_exact_duplicates`). -/
def sizedFiles (entries : List Entry) : List Entry :=
  entries.filter (fun e => !isFolder e && e.size.isSome)

/-- The grouping key `(file['name'], int(file['size']))`. -/
def nameSizeKey (e : Entry) : String × Nat := (e.name, (e.size).getD 0)

/-- `find_exact_duplicates`: group candidates by `(name, size)` in dict
insertion order, keep groups with more than one member, sort descending by
size (stable). -/
def exactDupGroups (entries : List Entry) : List ExactGroup :=
  sortDesc (fun g => g.size)
    (((keyOrder ((sizedFiles entries).map nameSizeKey)).map (fun k =>
      (⟨k.1, k.2, (sizedFiles entries).filter (fun e => nameSizeKey e == k),
        ((sizedFiles entries).filter (fun e => nameSizeKey e == k)).length⟩ : ExactGroup))).filter
      (fun g => 1 < g.count))

/-- `sum(d['size'] * (d['count'] - 1) for d in self.exact_duplicates)`
(the reclaimable-space estimate of `generate_suggestions` and
`generate_reorganization_plan`). -/
def dupesSavings (entries : List Entry) : Nat :=
  ((exactDupGroups entries).map (fun d => d.size * (d.count - 1))).sum

/-- Concrete snapshot for C5: two 100-byte files named a.txt and one 200-byte
file of the same name. -/
def c5ex : List Entry :=
  [mkFile "1" "a.txt" [] (some 100) none,
   mkFile "2" "a.txt" [] (some 100) none,
   mkFile "3" "a.txt" [] (some 200) none]

/-- C5: exact-duplicate detection groups non-folder sized entries by
`(name, size)`; every reported group has at least two members, all sharing
the group's name and size; groups are sorted descending by size; the savings
estimate sums `size × (count − 1)`.  On `c5ex` the two 100-byte a.txt files
form one group with reclaimable space 100 and the 200-byte a.txt stays out. -/
theorem c5_exact_duplicates :
    (∀ (entries : List Entry) (g : ExactGroup), g ∈ exactDupGroups entries →
        2 ≤ g.count ∧ g.count = g.files.length ∧
        ∀ f ∈ g.files, isFolder f = false ∧ f.size = some g.size ∧ f.name = g.name)
    ∧ (∀ entries : List Entry, SortedDescBy (fun g => g.size) (exactDupGroups entries))
    ∧ (∀ entries : List Entry,
        dupesSavings entries =
          ((exactDupGroups entries).map (fun d => d.size * (d.count - 1))).sum)
    ∧ exactDupGroups c5ex =
        [⟨"a.txt", 100, [mkFile "1" "a.txt" [] (some 100) none,
          mkFile "2" "a.txt" [] (some 100) none], 2⟩]
    ∧ mkFile "3" "a.txt" [] (some 200) none ∉
        (⟨"a.txt", 100, [mkFile "1" "a.txt" [] (some 100) none,
          mkFile "2" "a.txt" [] (some 100) none], 2⟩ : ExactGroup).files
    ∧ dupesSavings c5ex = 100 := by
  refine ⟨?_, fun _ => sortDesc_sorted, fun _ => rfl, by decide, by decide, by decide⟩
  intro entries g hg
  rw [exactDupGroups] at hg
  rw [mem_sortDesc, List.mem_filter] at hg
  obtain ⟨hmap, hcnt⟩ := hg
  rw [List.mem_map] at hmap
  obtain ⟨k, _, hk⟩ := hmap
  subst hk
  simp only [decide_eq_true_eq] at hcnt
  dsimp only at hcnt ⊢
  refine ⟨by omega, rfl, ?_⟩
  intro f hf
  rw [List.mem_filter] at hf
  obtain ⟨hcand, hkey⟩ := hf
  unfold sizedFiles at hcand
  rw [List.mem_filter] at hcand
  have hprops := hcand.2
  rw [Bool.and_eq_true] at hprops
  have hnf : isFolder f = false := by
    have := hprops.1
    cases hh : isFolder f
    · rfl
    · rw [hh] at this; cases this
  have hsome : (f.size).isSome := hprops.2
  have hkeq : nameSizeKey f = k := by simpa using hkey
  unfold nameSizeKey at hkeq
  have hn : f.name = k.1 := by rw [← hkeq]
  have hs2 : (f.size).getD 0 = k.2 := by rw [← hkeq]
  refine ⟨hnf, ?_, hn⟩
  cases hs : f.size with
  | none => rw [hs] at hsome; cases hsome
  | some v =>
    have hv : v = k.2 := by
      rw [← hs2, hs]
      rfl
    rw [hv]

/-- C5: witness applying the theorem's group property at the concrete snapshot. -/
theorem c5_witness :
    2 ≤ (⟨"a.txt", 100, [mkFile "1" "a.txt" [] (some 100) none,
        mkFile "2" "a.txt" [] (some 100) none], 2⟩ : ExactGroup).count :=
  (c5_exact_duplicates.1 c5ex _ (by decide)).1

/-- `str.lower()` (ASCII, which is all the source's patterns need). -/
def lowerStr (s : String) : String := ⟨s.toList.map Char.toLower⟩

/-- Does `pat` occur as a prefix of `hay`? -/
def startsWithL : List Char → List Char → Bool
  | [], _ => true
  | _ :: _, [] => false
  | p :: ps, h :: hs => p == h && startsWithL ps hs

/-- `re.search` of a literal pattern: does `pat` occur anywhere in `hay`? -/
def containsL (pat hay : List Char) : Bool :=
  hay.tails.any (fun t => startsWithL pat t)

/-- `path.count('/')`. -/
def countSlash (s : String) : Nat := s.toList.count '/'

/-- `(now - created_date).days`: Python `timedelta.days` floors. -/
def ageDaysOf (now created : Int) : Int := (now - created).fdiv 86400

/-- `re.search(r'copy.*of', s)`: an occurrence of "copy" with "of" somewhere
after it. -/
def copyOfPat (l : List Char) : Bool :=
  l.tails.any (fun t => startsWithL ("copy".toList) t && containsL ("of".toList) (t.drop 4))

/-- `re.search(r'\(\d+\)', s)`: "(", one or more digits, ")".  Since the
digit run is contiguous, backtracking succeeds exactly when the maximal run
after "(" is nonempty and followed by ")". -/
def parenNumPat (l : List Char) : Bool :=
  l.tails.any (fun t =>
    match t with
    | '(' :: r =>
      !(r.takeWhile Char.isDigit).isEmpty &&
        ((r.drop (r.takeWhile Char.isDigit).length).head? == some ')')
    | _ => false)

/-- `re.search(r'_\d{8}', s)`: "_" followed by eight digits. -/
def underscore8Pat (l : List Char) : Bool :=
  l.tails.any (fun t =>
    match t with
    | '_' :: r => (r.take 8).length == 8 && (r.take 8).all Char.isDigit
    | _ => false)

/-- `re.search(r'\d{4}-\d{2}-\d{2}', s)`. -/
def datePat (l : List Char) : Bool :=
  l.tails.any (fun t =>
    match t with
    | a :: b :: c :: d :: e :: f :: g :: h :: i :: j :: _ =>
      a.isDigit && b.isDigit && c.isDigit && d.isDigit && e == '-' &&
        f.isDigit && g.isDigit && h == '-' && i.isDigit && j.isDigit
    | _ => false)

/-- The `backup_patterns` test of `find_unused_files` (case-insensitive search;
the loop breaks at the first matching pattern and adds the one generic reason,
so its effect is "any pattern matches"). -/
def matchesBackup (nm : String) : Bool :=
  let l := (lowerStr nm).toList
  containsL ("temp".toList) l || containsL ("tmp".toList) l ||
    containsL ("cache".toList) l || containsL ("backup".toList) l ||
    containsL ("bak".toList) l || containsL ("old".toList) l ||
    copyOfPat l || parenNumPat l || underscore8Pat l || datePat l

/-- The three regex shapes used by `self.category_patterns`. -/
inductive Pat where
  | ends (alts : List String)
  | sub (s : String)
  | dotStar (a b : String)
deriving DecidableEq, Repr

/-- `re.search(pattern, s, re.IGNORECASE)` for the three shapes (inputs are
already lowercased by the caller, as in the source). -/
def patMatch : Pat → String → Bool
  | Pat.ends alts, s => alts.any (fun a =>
      startsWithL (("." ++ a).toList.reverse) (s.toList.reverse))
  | Pat.sub p, s => containsL p.toList s.toList
  | Pat.dotStar a b, s =>
      s.toList.tails.any (fun t =>
        startsWithL a.toList t && containsL b.toList (t.drop a.toList.length))

/-- `self.category_patterns`, in declaration order. -/
def categoryPatterns : List (String × List Pat) :=
  [("Photos", [Pat.ends ["jpg", "jpeg", "png", "gif", "bmp", "heic"], Pat.sub "image/"]),
   ("Documents", [Pat.ends ["pdf", "doc", "docx", "txt", "rtf", "odt"],
      Pat.sub "document", Pat.sub "text/plain"]),
   ("Spreadsheets", [Pat.ends ["xls", "xlsx", "csv", "ods"],
      Pat.sub "spreadsheet", Pat.sub "text/csv"]),
   ("Presentations", [Pat.ends ["ppt", "pptx", "key"], Pat.sub "presentation"]),
   ("Videos", [Pat.ends ["mp4", "mov", "avi", "mkv", "3gpp"], Pat.sub "video/"]),
   ("Audio", [Pat.ends ["mp3", "wav", "ogg", "m4a"], Pat.sub "audio/"]),
   ("Archives", [Pat.ends ["zip", "rar", "gz", "7z", "tar"], Pat.dotStar "application/" "zip"]),
   ("Code", [Pat.ends ["py", "java", "js", "html", "css", "php"], Pat.dotStar "text/" "script"])]

/-- Does any pattern of one category match the entry's lowercased name or
lowercased MIME type? -/
def catMatches (cp : String × List Pat) (e : Entry) : Bool :=
  cp.2.any (fun p =>
    patMatch p (lowerStr e.name) || patMatch p (lowerStr ((e.mimeType).getD "")))

/-- The category label `categorize_files` assigns to one non-folder entry:
first category (in declaration order) with a matching pattern, else "Other". -/
def categorizeEntry (e : Entry) : String :=
  match categoryPatterns.find? (fun cp => catMatches cp e) with
  | some cp => cp.1
  | none => "Other"

/-- `categorize_files`: buckets in order of first appearance (defaultdict
insertion order), each holding its entries in input order. -/
def categorizeFiles (entries : List Entry) : List (String × List Entry) :=
  (keyOrder ((entries.filter (fun e => !isFolder e)).map categorizeEntry)).map
    (fun c => (c, (entries.filter (fun e => !isFolder e)).filter
      (fun e => categorizeEntry e == c)))

/-- One retained unused-file record. -/
structure UnusedRec where
  id : String
  name : String
  score : Nat
  reasons : List String
  size : Nat
  path : String
deriving DecidableEq, Repr

/-- The body of `find_unused_files`'s per-entry loop, transcribed in source
order (age band, then folder depth, then backup/temp name patterns); returns
`(score, reasons, path)`. -/
def entryScore (folders : List Entry) (now : Int) (e : Entry) :
    Nat × List String × String :=
  let ageSR : Nat × List String :=
    match e.createdTime with
    | none => (0, [])
    | some t =>
      if 1095 < ageDaysOf now t then
        (2, ["Zeer oud (" ++ toString (ageDaysOf now t) ++ " dagen)"])
      else if 730 < ageDaysOf now t then
        (1, ["Oud (" ++ toString (ageDaysOf now t) ++ " dagen)"])
      else (0, [])
  let depthSRP : Nat × List String × String :=
    match e.parents with
    | [] => (0, [], "/")
    | p :: _ =>
      if 7 < countSlash (getFolderPath folders p []) then
        (1, ["Diep genest (niveau " ++ toString (countSlash (getFolderPath folders p [])) ++ ")"],
          getFolderPath folders p [])
      else (0, [], getFolderPath folders p [])
  let patSR : Nat × List String :=
    if matchesBackup e.name then (2, ["Backup/temp patroon"]) else (0, [])
  (ageSR.1 + depthSRP.1 + patSR.1,
    ageSR.2 ++ depthSRP.2.1 ++ patSR.2,
    depthSRP.2.2)

/-- `find_unused_files`: keep non-folder entries scoring at least 3, sorted
descending by score (stable). -/
def unusedOf (entries : List Entry) (now : Int) : List UnusedRec :=
  sortDesc (fun r => r.score)
    ((entries.filter (fun e => !isFolder e)).filterMap (fun e =>
      if 3 ≤ (entryScore (foldersOf entries) now e).1 then
        some ⟨e.id, e.name, (entryScore (foldersOf entries) now e).1,
          (entryScore (foldersOf entries) now e).2.1,
          (e.size).getD 0, (entryScore (foldersOf entries) now e).2.2⟩
      else none))

/-- Claim-side age band: +2 beyond 1095 days, else +1 beyond 730, else 0;
no contribution without a creation time. -/
def ageBand (now : Int) (e : Entry) : Nat :=
  match e.createdTime with
  | none => 0
  | some t => if 1095 < ageDaysOf now t then 2 else if 730 < ageDaysOf now t then 1 else 0

/-- Claim-side depth band: +1 when the resolved first-parent path has more
than 7 separators. -/
def depthBand (folders : List Entry) (e : Entry) : Nat :=
  match e.parents with
  | [] => 0
  | p :: _ => if 7 < countSlash (getFolderPath folders p []) then 1 else 0

/-- Claim-side pattern band: +2 when any backup/temp pattern matches. -/
def patBand (e : Entry) : Nat := if matchesBackup e.name then 2 else 0

/-- One old-file record of `find_old_files`. -/
structure OldRec where
  id : String
  name : String
  path : String
  created : Int
  ageDays : Int
  size : Nat
deriving DecidableEq, Repr

/-- `find_old_files(days_threshold)`: non-folder entries with a creation time
strictly before `now - threshold` days, sorted descending by age. -/
def oldFilesOf (entries : List Entry) (now : Int) (daysThreshold : Int) : List OldRec :=
  sortDesc (fun r => r.ageDays)
    (entries.filterMap (fun e =>
      if isFolder e then none
      else
        match e.createdTime with
        | none => none
        | some t =>
          if t < now - daysThreshold * 86400 then
            some ⟨e.id, e.name,
              (match e.parents with
               | [] => "/"
               | p :: _ => getFolderPath (foldersOf entries) p []),
              t, ageDaysOf now t, (e.size).getD 0⟩
          else none))

/-- Deep-chain snapshot for C6: eight nested folders and a file aged 1100
days named "backup_2023.zip" at depth 8. -/
def chain6 : List Entry :=
  [mkFolder "f1" "a1" [], mkFolder "f2" "a2" ["f1"], mkFolder "f3" "a3" ["f2"],
   mkFolder "f4" "a4" ["f3"], mkFolder "f5" "a5" ["f4"], mkFolder "f6" "a6" ["f5"],
   mkFolder "f7" "a7" ["f6"], mkFolder "f8" "a8" ["f7"],
   mkFile "X" "backup_2023.zip" ["f8"] none (some 0)]

/-- C6: the unused-file score decomposes into the three claim bands (age band
mutually exclusive with the higher band winning and no contribution without a
creation time, +1 for separator count beyond 7, +2 for a backup/temp name
pattern contributing exactly one reason); exactly the entries scoring at
least 3 are retained, sorted descending by score, carrying their reasons; and
the 1100-day-old, depth-8 "backup_2023.zip" example scores 5 with three
reasons. -/
theorem c6_unused_scoring :
    (∀ (folders : List Entry) (now : Int) (e : Entry),
        (entryScore folders now e).1 = ageBand now e + depthBand folders e + patBand e)
    ∧ (∀ (folders : List Entry) (now : Int) (e : Entry),
        (entryScore folders now e).2.1.length =
          (if ageBand now e = 0 then 0 else 1) + depthBand folders e +
            (if patBand e = 0 then 0 else 1))
    ∧ (∀ (entries : List Entry) (now : Int) (u : UnusedRec),
        u ∈ unusedOf entries now → 3 ≤ u.score)
    ∧ (∀ (entries : List Entry) (now : Int),
        SortedDescBy (fun r => r.score) (unusedOf entries now))
    ∧ (∀ (entries : List Entry) (now : Int) (e : Entry),
        e ∈ entries → isFolder e = false →
        3 ≤ (entryScore (foldersOf entries) now e).1 →
        (⟨e.id, e.name, (entryScore (foldersOf entries) now e).1,
          (entryScore (foldersOf entries) now e).2.1, (e.size).getD 0,
          (entryScore (foldersOf entries) now e).2.2⟩ : UnusedRec) ∈ unusedOf entries now)
    ∧ unusedOf chain6 (1100 * 86400) =
        [⟨"X", "backup_2023.zip", 5,
          ["Zeer oud (1100 dagen)", "Diep genest (niveau 8)", "Backup/temp patroon"],
          0, "/a1/a2/a3/a4/a5/a6/a7/a8"⟩] := by
  refine ⟨?_, ?_, ?_, fun _ _ => sortDesc_sorted, ?_, by decide⟩
  · intro folders now e
    unfold entryScore ageBand depthBand patBand
    cases e.createdTime <;> cases e.parents <;> dsimp only <;> split_ifs <;> simp_all
  · intro folders now e
    unfold entryScore ageBand depthBand patBand
    cases e.createdTime <;> cases e.parents <;> dsimp only <;> split_ifs <;> simp_all
  · intro entries now u hu
    rw [unusedOf, mem_sortDesc, List.mem_filterMap] at hu
    obtain ⟨e, _, hsome⟩ := hu
    by_cases hcond : 3 ≤ (entryScore (foldersOf entries) now e).1
    · rw [if_pos hcond] at hsome
      obtain rfl : _ = u := by simpa using hsome
      exact hcond
    · rw [if_neg hcond] at hsome
      cases hsome
  · intro entries now e hmem hnf hscore
    rw [unusedOf, mem_sortDesc, List.mem_filterMap]
    refine ⟨e, ?_, ?_⟩
    · rw [List.mem_filter]
      exact ⟨hmem, by rw [Bool.not_eq_true', hnf]⟩
    · rw [if_pos hscore]

/-- C6: witness applying the theorem at the concrete deep-chain snapshot. -/
theorem c6_witness :
    3 ≤ (⟨"X", "backup_2023.zip", 5,
      ["Zeer oud (1100 dagen)", "Diep genest (niveau 8)", "Backup/temp patroon"],
      0, "/a1/a2/a3/a4/a5/a6/a7/a8"⟩ : UnusedRec).score :=
  c6_unused_scoring.2.2.1 chain6 (1100 * 86400) _ (by decide)

theorem find?_append_of_none {α : Type} {p : α → Bool} :
    ∀ {l1 l2 : List α}, (∀ x ∈ l1, p x = false) →
      (l1 ++ l2).find? p = l2.find? p := by
  intro l1
  induction l1 with
  | nil => intro l2 _; simp
  | cons a l ih =>
    intro l2 h
    rw [List.cons_append, List.find?_cons_of_neg]
    · exact ih fun x hx => h x (List.mem_cons_of_mem _ hx)
    · rw [h a (List.mem_cons_self _ _)]
      exact Bool.false_ne_true

/-- Concrete entry for C7: a file named photo.jpg without a MIME type. -/
def photoJpg : Entry := mkFile "p" "photo.jpg" [] none none

/-- C7: categorization is first-declared-category-with-a-match wins, testing
each category's patterns against the lowercased name and lowercased MIME
string; unmatched entries go to "Other"; each bucket of `categorize_files`
holds exactly the non-folder entries whose first matching category is that
bucket's label, and every non-folder entry lands in exactly its own bucket;
"photo.jpg" with no MIME type lands in "Photos", whose pattern list carries
the .jpg extension pattern. -/
theorem c7_categorizer :
    (∀ (e : Entry) (pre : List (String × List Pat)) (cp : String × List Pat)
        (post : List (String × List Pat)),
        categoryPatterns = pre ++ cp :: post →
        catMatches cp e = true → (∀ cp2 ∈ pre, catMatches cp2 e = false) →
        categorizeEntry e = cp.1)
    ∧ (∀ e : Entry, (∀ cp ∈ categoryPatterns, catMatches cp e = false) →
        categorizeEntry e = "Other")
    ∧ (∀ (entries : List Entry) (c : String) (fs : List Entry),
        (c, fs) ∈ categorizeFiles entries →
        ∀ e : Entry, e ∈ fs ↔ e ∈ entries ∧ isFolder e = false ∧ categorizeEntry e = c)
    ∧ (∀ (entries : List Entry) (e : Entry), e ∈ entries → isFolder e = false →
        ∃ fs, (categorizeEntry e, fs) ∈ categorizeFiles entries ∧ e ∈ fs)
    ∧ categorizeEntry photoJpg = "Photos"
    ∧ ("Photos", [Pat.ends ["jpg", "jpeg", "png", "gif", "bmp", "heic"],
        Pat.sub "image/"]) ∈ categoryPatterns := by
  refine ⟨?_, ?_, ?_, ?_, by decide, by decide⟩
  · intro e pre cp post hsplit hmatch hpre
    unfold categorizeEntry
    rw [hsplit, find?_append_of_none hpre, List.find?_cons_of_pos post hmatch]
  · intro e hnone
    unfold categorizeEntry
    rw [List.find?_eq_none.mpr (fun cp hcp => by rw [hnone cp hcp]; exact Bool.false_ne_true)]
  · intro entries c fs hmem e
    unfold categorizeFiles at hmem
    rw [List.mem_map] at hmem
    obtain ⟨c', hc', heq⟩ := hmem
    obtain ⟨rfl, rfl⟩ : c' = c ∧ ((entries.filter (fun x => !isFolder x)).filter
        (fun x => categorizeEntry x == c')) = fs := by
      constructor
      · exact congrArg Prod.fst heq
      · exact congrArg Prod.snd heq
    rw [List.mem_filter, List.mem_filter]
    constructor
    · rintro ⟨⟨hin, hnf⟩, hcat⟩
      refine ⟨hin, ?_, ?_⟩
      · rw [Bool.not_eq_true'] at hnf; exact hnf
      · simpa using hcat
    · rintro ⟨hin, hnf, hcat⟩
      refine ⟨⟨hin, ?_⟩, ?_⟩
      · rw [Bool.not_eq_true', hnf]
      · simpa using hcat
  · intro entries e hin hnf
    refine ⟨(entries.filter (fun x => !isFolder x)).filter
      (fun x => categorizeEntry x == categorizeEntry e), ?_, ?_⟩
    · unfold categorizeFiles
      rw [List.mem_map]
      refine ⟨categorizeEntry e, ?_, rfl⟩
      rw [mem_keyOrder, List.mem_map]
      refine ⟨e, ?_, rfl⟩
      rw [List.mem_filter]
      exact ⟨hin, by rw [Bool.not_eq_true', hnf]⟩
    · rw [List.mem_filter, List.mem_filter]
      exact ⟨⟨hin, by rw [Bool.not_eq_true', hnf]⟩, by simp⟩

/-- C7: witness applying the first-match clause at photo.jpg and "Photos"
(the head of the declaration list, with no earlier categories). -/
theorem c7_witness : categorizeEntry photoJpg = ("Photos",
    [Pat.ends ["jpg", "jpeg", "png", "gif", "bmp", "heic"], Pat.sub "image/"]).1 :=
  c7_categorizer.1 photoJpg []
    ("Photos", [Pat.ends ["jpg", "jpeg", "png", "gif", "bmp", "heic"], Pat.sub "image/"])
    (categoryPatterns.tail) (by decide) (by decide) (by decide)

/-- `defaultdict(list)` append: `m[k].append(v)`. -/
def ddAppend {α : Type} (m : List (String × List α)) (k : String) (v : α) :
    List (String × List α) :=
  match m with
  | [] => [(k, [v])]
  | (k0, l0) :: m' => if k0 = k then (k0, l0 ++ [v]) :: m' else (k0, l0) :: ddAppend m' k v

/-- `defaultdict(list)` read: `m[k]`, defaulting to the empty list. -/
def ddLookup {α : Type} (m : List (String × List α)) (k : String) : List α :=
  match m with
  | [] => []
  | (k0, l0) :: m' => if k0 = k then l0 else ddLookup m' k

/-- The children-index construction loop of `load_data`, starting from a given
(possibly already populated) `children_map`:
`for item in files: for parent_id in item.parents: children_map[parent_id].append(item)`. -/
def buildChildrenFrom (start : List (String × List Entry)) (entries : List Entry) :
    List (String × List Entry) :=
  entries.foldl (fun m item => item.parents.foldl (fun m2 pid => ddAppend m2 pid item) m) start

/-- The children index of a fresh analyzer. -/
def childrenOf (entries : List Entry) (pid : String) : List Entry :=
  ddLookup (buildChildrenFrom [] entries) pid

theorem mem_ddLookup_ddAppend {α : Type} {k k' : String} {v x : α} :
    ∀ {m : List (String × List α)},
      x ∈ ddLookup (ddAppend m k v) k' ↔ x ∈ ddLookup m k' ∨ (k' = k ∧ x = v) := by
  intro m
  induction m with
  | nil =>
    unfold ddAppend ddLookup
    by_cases hk : k = k'
    · rw [if_pos hk]
      subst hk
      simp
    · rw [if_neg hk]
      unfold ddLookup
      simp
      intro h
      exact absurd h.symm hk
  | cons hd m' ih =>
    obtain ⟨k0, l0⟩ := hd
    unfold ddAppend
    by_cases h0 : k0 = k
    · rw [if_pos h0]
      subst h0
      unfold ddLookup
      by_cases h1 : k0 = k'
      · rw [if_pos h1, if_pos h1]
        subst h1
        simp
      · rw [if_neg h1, if_neg h1]
        unfold ddLookup
        constructor
        · intro hx; exact Or.inl hx
        · rintro (hx | ⟨hk, _⟩)
          · exact hx
          · exact absurd (hk.symm) h1
    · rw [if_neg h0]
      unfold ddLookup
      by_cases h1 : k0 = k'
      · rw [if_pos h1, if_pos h1]
        constructor
        · intro hx; exact Or.inl hx
        · rintro (hx | ⟨hk, _⟩)
          · exact hx
          · subst hk; exact absurd h1 h0
      · rw [if_neg h1, if_neg h1]
        exact ih

theorem mem_ddLookup_parentsFold {pid : String} {item x : Entry} :
    ∀ (ps : List String) (m : List (String × List Entry)),
      x ∈ ddLookup (ps.foldl (fun m2 p => ddAppend m2 p item) m) pid ↔
        x ∈ ddLookup m pid ∨ (pid ∈ ps ∧ x = item) := by
  intro ps
  induction ps with
  | nil => intro m; simp
  | cons p ps ih =>
    intro m
    rw [List.foldl_cons, ih (ddAppend m p item)]
    rw [mem_ddLookup_ddAppend]
    constructor
    · rintro ((hx | ⟨hk, hv⟩) | ⟨hps, hv⟩)
      · exact Or.inl hx
      · exact Or.inr ⟨by rw [hk]; exact List.mem_cons_self _ _, hv⟩
      · exact Or.inr ⟨List.mem_cons_of_mem _ hps, hv⟩
    · rintro (hx | ⟨hps, hv⟩)
      · exact Or.inl (Or.inl hx)
      · rcases List.mem_cons.mp hps with rfl | hps'
        · exact Or.inl (Or.inr ⟨rfl, hv⟩)
        · exact Or.inr ⟨hps', hv⟩

theorem mem_buildChildrenFrom {pid : String} {x : Entry} :
    ∀ (entries : List Entry) (start : List (String × List Entry)),
      x ∈ ddLookup (buildChildrenFrom start entries) pid ↔
        x ∈ ddLookup start pid ∨ (x ∈ entries ∧ pid ∈ x.parents) := by
  intro entries
  induction entries with
  | nil => intro start; simp [buildChildrenFrom]
  | cons e es ih =>
    intro start
    show x ∈ ddLookup (buildChildrenFrom
      (e.parents.foldl (fun m2 p => ddAppend m2 p e) start) es) pid ↔ _
    rw [ih, mem_ddLookup_parentsFold]
    constructor
    · rintro ((hx | ⟨hps, rfl⟩) | ⟨hes, hps⟩)
      · exact Or.inl hx
      · exact Or.inr ⟨List.mem_cons_self _ _, hps⟩
      · exact Or.inr ⟨List.mem_cons_of_mem _ hes, hps⟩
    · rintro (hx | ⟨hmem, hps⟩)
      · exact Or.inl (Or.inl hx)
      · rcases List.mem_cons.mp hmem with rfl | hes
        · exact Or.inl (Or.inr ⟨hps, rfl⟩)
        · exact Or.inr ⟨hes, hps⟩

/-- Keep only the first parent of an entry. -/
def truncEntry (e : Entry) : Entry :=
  ⟨e.id, e.name, e.mimeType, e.size, e.createdTime, e.parents.take 1⟩

theorem find?_map_trunc {fid : String} :
    ∀ l : List Entry,
      (l.map truncEntry).find? (fun f => f.id == fid) =
        (l.find? (fun f => f.id == fid)).map truncEntry := by
  intro l
  induction l with
  | nil => rfl
  | cons a l ih =>
    rw [List.map_cons]
    by_cases h : (a.id == fid) = true
    · rw [List.find?_cons_of_pos (l.map truncEntry)
        (show (fun f => f.id == fid) (truncEntry a) = true from h),
        List.find?_cons_of_pos l (show (fun f => f.id == fid) a = true from h)]
      rfl
    · rw [List.find?_cons_of_neg (l.map truncEntry)
        (show ¬(fun f => f.id == fid) (truncEntry a) = true from h),
        List.find?_cons_of_neg l (show ¬(fun f => f.id == fid) a = true from h), ih]

theorem folderLookup_map_trunc {folders : List Entry} {fid : String} :
    folderLookup (folders.map truncEntry) fid = (folderLookup folders fid).map truncEntry := by
  unfold folderLookup
  rw [← List.map_reverse, find?_map_trunc]

theorem getFolderPathF_trunc {folders : List Entry} :
    ∀ (fuel : Nat) (fid : String) (visited : List String),
      getFolderPathF (folders.map truncEntry) fuel fid visited =
        getFolderPathF folders fuel fid visited := by
  intro fuel
  induction fuel with
  | zero => intro fid visited; rfl
  | succ n ih =>
    intro fid visited
    rw [getFolderPathF, getFolderPathF]
    by_cases hv : fid ∈ visited
    · rw [if_pos hv, if_pos hv]
    · rw [if_neg hv, if_neg hv, folderLookup_map_trunc]
      cases hl : folderLookup folders fid with
      | none => rfl
      | some f =>
        dsimp only [Option.map, truncEntry]
        cases hp : f.parents with
        | nil => rfl
        | cons p ps =>
          dsimp only [List.take]
          rw [ih p (fid :: visited)]

theorem pathMeasure_trunc {folders : List Entry} {visited : List String} :
    pathMeasure (folders.map truncEntry) visited = pathMeasure folders visited := by
  unfold pathMeasure
  rw [List.map_map]
  rfl

theorem getFolderPath_trunc {folders : List Entry} {fid : String} {visited : List String} :
    getFolderPath (folders.map truncEntry) fid visited = getFolderPath folders fid visited := by
  unfold getFolderPath
  rw [pathMeasure_trunc, getFolderPathF_trunc]

/-- Multi-parent snapshot for C8. -/
def c8ex : List Entry :=
  [mkFolder "P1" "P1n" [], mkFolder "P2" "P2n" [],
   mkFile "E" "e.txt" ["P1", "P2"] none none]

/-- C8: the children index registers an entry under every listed parent id —
membership in a bucket is exactly "the bucket's id occurs in the entry's
parents list" — and entries without parents land in no bucket; path
resolution is invariant under discarding all parents but the first, i.e. it
follows only the first parent.  Concretely, the entry with parents
`["P1", "P2"]` sits in both buckets while its resolved path (as used by the
scorers) is P1's path. -/
theorem c8_children_and_first_parent :
    (∀ (entries : List Entry) (pid : String) (x : Entry),
        x ∈ childrenOf entries pid ↔ x ∈ entries ∧ pid ∈ x.parents)
    ∧ (∀ (entries : List Entry) (x : Entry) (pid : String),
        x.parents = [] → x ∉ childrenOf entries pid)
    ∧ (∀ (folders : List Entry) (fid : String) (visited : List String),
        getFolderPath (folders.map truncEntry) fid visited =
          getFolderPath folders fid visited)
    ∧ mkFile "E" "e.txt" ["P1", "P2"] none none ∈ childrenOf c8ex "P1"
    ∧ mkFile "E" "e.txt" ["P1", "P2"] none none ∈ childrenOf c8ex "P2"
    ∧ (entryScore (foldersOf c8ex) 0 (mkFile "E" "e.txt" ["P1", "P2"] none none)).2.2
        = "/P1n" := by
  refine ⟨?_, ?_, fun _ _ _ => getFolderPath_trunc, by decide, by decide, by decide⟩
  · intro entries pid x
    unfold childrenOf
    rw [mem_buildChildrenFrom]
    simp [ddLookup]
  · intro entries x pid hps hmem
    unfold childrenOf at hmem
    rw [mem_buildChildrenFrom] at hmem
    rcases hmem with h | ⟨_, hp⟩
    · simp [ddLookup] at h
    · rw [hps] at hp
      cases hp

/-- C8: witness applying the no-parents clause at a concrete snapshot. -/
theorem c8_witness :
    mkFolder "P1" "P1n" [] ∉ childrenOf c8ex "P2" :=
  c8_children_and_first_parent.2.1 c8ex (mkFolder "P1" "P1n" []) "P2" (by decide)

/-- The unit list of `_bytes_to_readable`. -/
def sizeUnits : List String := ["B", "KB", "MB", "GB", "TB"]

/-- The division loop of `_bytes_to_readable`:
`while bytes_value >= 1024 and i < len(sizes) - 1`.  The running float value
is exactly `n / 2^e` (scaling by a power of two is exact), so the loop state
is the exponent `e` and unit index `i`; the loop runs at most 4 times, which
the `steps` argument makes structural (`steps = 4` at the top call; the guard
`i < 4` is checked inside, so the bound is never the reason the loop stops). -/
def b2rLoop (n : Nat) : Nat → Nat → Nat → Nat × Nat
  | 0, e, i => (e, i)
  | steps+1, e, i =>
    if 1024 * 2 ^ e ≤ n ∧ i < 4 then b2rLoop n steps (e + 10) (i + 1) else (e, i)

/-- `f"{v:.2f}"` of the exact value `n / 2^e`: round half-to-even at two
decimals (which is what formatting the underlying binary float does), then
print with exactly two fractional digits. -/
def fmt2 (n : Nat) (e : Nat) : String :=
  let num := n * 100
  let den := 2 ^ e
  let q := num / den
  let r := num % den
  let h := if 2 * r < den then q else if den < 2 * r then q + 1
    else if q % 2 = 0 then q else q + 1
  toString (h / 100) ++ "." ++ (if h % 100 < 10 then "0" else "") ++ toString (h % 100)

/-- `_bytes_to_readable`. -/
def bytesToReadable (n : Nat) : String :=
  if n = 0 then "0 B"
  else
    fmt2 n (b2rLoop n 4 0 0).1 ++ " " ++ (sizeUnits.getD (b2rLoop n 4 0 0).2 "")

/-- One line of the HTML tree for a non-folder child
(`generate_folder_html`'s file loop body). -/
def fileLi (file : Entry) : String :=
  "<li data-name=\"" ++ lowerStr file.name ++ "\"><span class=\"file\">" ++
    file.name ++ " (" ++
    (if (file.size).isSome then bytesToReadable ((file.size).getD 0) else "?") ++ ", " ++
    (((file.mimeType).getD "unknown").splitOn "/").getLastD "" ++ ")</span></li>"

/-- Sequence a list of fuel-limited results, concatenating line lists;
`none` (out of fuel / divergence) is contagious. -/
def optConcat : List (Option (List String)) → Option (List String)
  | [] => some []
  | o :: os =>
    match o, optConcat os with
    | some x, some y => some (x ++ y)
    | _, _ => none

/-- Sequence fuel-limited string results. -/
def optConcatStr : List (Option String) → Option String
  | [] => some ""
  | o :: os =>
    match o, optConcatStr os with
    | some x, some y => some (x ++ y)
    | _, _ => none

/-- `print_folder_tree(folder_id, depth)` of `analyze_structure`, with fuel:
the source recursion carries no cycle guard.  Returns the written lines. -/
def printTreeF (folders : List Entry) (cmap : String → List Entry) :
    Nat → String → Nat → Option (List String)
  | 0, _, _ => none
  | fuel+1, fid, depth =>
    match folderLookup folders fid with
    | none => some []
    | some folder =>
      match optConcat ((sortAsc (fun c => c.name) ((cmap fid).filter
          (fun c => isFolder c))).map
          (fun c => printTreeF folders cmap fuel c.id (depth + 1))) with
      | none => none
      | some rest =>
        some ((String.join (List.replicate depth "  ") ++ "- " ++ folder.name ++
          " (ID: " ++ fid ++ ")") :: rest)

/-- `generate_folder_html(folder_id)` of `create_visualization`, with fuel:
again no cycle guard in the source. -/
def genHtmlF (folders : List Entry) (cmap : String → List Entry) :
    Nat → String → Option String
  | 0, _ => none
  | fuel+1, fid =>
    match folderLookup folders fid with
    | none => some ""
    | some folder =>
      match optConcatStr ((sortAsc (fun c => lowerStr c.name) ((cmap fid).filter
          (fun c => isFolder c))).map
          (fun c => genHtmlF folders cmap fuel c.id)) with
      | none => none
      | some subHtml =>
        if (cmap fid).filter (fun c => isFolder c) = [] ∧
            (cmap fid).filter (fun c => !isFolder c) = [] then
          some ("<li data-name=\"" ++ lowerStr folder.name ++
            "\"><span class=\"caret folder\">" ++ folder.name ++ "</span></li>")
        else
          some ("<li data-name=\"" ++ lowerStr folder.name ++
            "\"><span class=\"caret folder\">" ++ folder.name ++ "</span>" ++
            "<ul class=\"nested\">" ++ subHtml ++
            String.join ((sortAsc (fun c => lowerStr c.name) ((cmap fid).filter
              (fun c => !isFolder c))).map fileLi) ++
            "</ul></li>")

/-- The folder-tree serialization of `analyze_structure` (root sections plus
orphan listing), with fuel. -/
def analyzeStructureF (entries : List Entry) (fuel : Nat) : Option (List String) :=
  match optConcat ((sortAsc (fun f => f.name) (rootFolders entries)).map
      (fun f => printTreeF (foldersOf entries) (childrenOf entries) fuel f.id 0)) with
  | none => none
  | some body =>
    some (("Root mappen:" :: body) ++
      (if orphanFolders entries = [] then []
       else "Wezen mappen (geen geldige parent):" ::
         (sortAsc (fun f => f.name) (orphanFolders entries)).map
           (fun f => "- " ++ f.name ++ " (ID: " ++ f.id ++ ")")))

/-- Cyclic snapshot reachable from a root, for C2: root R2, folder A2 with
parent B2, folder B2 with parents [A2, R2].  B2 is a child of the root R2,
and A2/B2 are folder children of each other. -/
def c2cyc : List Entry :=
  [mkFolder "R2" "R2" [], mkFolder "A2" "A2" ["B2"], mkFolder "B2" "B2" ["A2", "R2"]]

theorem c2_tree_loop : ∀ (n : Nat) (d : Nat),
    printTreeF (foldersOf c2cyc) (childrenOf c2cyc) n "A2" d = none ∧
    printTreeF (foldersOf c2cyc) (childrenOf c2cyc) n "B2" d = none := by
  intro n
  induction n with
  | zero => intro d; exact ⟨rfl, rfl⟩
  | succ n ih =>
    intro d
    constructor
    · rw [printTreeF]
      rw [show folderLookup (foldersOf c2cyc) "A2" = some (mkFolder "A2" "A2" ["B2"]) from by decide]
      dsimp only
      rw [show sortAsc (fun c => c.name) ((childrenOf c2cyc "A2").filter (fun c => isFolder c)) =
        [mkFolder "B2" "B2" ["A2", "R2"]] from by decide]
      rw [List.map_cons, List.map_nil]
      rw [show (mkFolder "B2" "B2" ["A2", "R2"]).id = "B2" from rfl]
      rw [(ih (d + 1)).2]
      rfl
    · rw [printTreeF]
      rw [show folderLookup (foldersOf c2cyc) "B2" = some (mkFolder "B2" "B2" ["A2", "R2"]) from by decide]
      dsimp only
      rw [show sortAsc (fun c => c.name) ((childrenOf c2cyc "B2").filter (fun c => isFolder c)) =
        [mkFolder "A2" "A2" ["B2"]] from by decide]
      rw [List.map_cons, List.map_nil]
      rw [show (mkFolder "A2" "A2" ["B2"]).id = "A2" from rfl]
      rw [(ih (d + 1)).1]
      rfl

theorem c2_html_loop : ∀ n : Nat,
    genHtmlF (foldersOf c2cyc) (childrenOf c2cyc) n "A2" = none ∧
    genHtmlF (foldersOf c2cyc) (childrenOf c2cyc) n "B2" = none := by
  intro n
  induction n with
  | zero => exact ⟨rfl, rfl⟩
  | succ n ih =>
    constructor
    · rw [genHtmlF]
      rw [show folderLookup (foldersOf c2cyc) "A2" = some (mkFolder "A2" "A2" ["B2"]) from by decide]
      dsimp only
      rw [show sortAsc (fun c => lowerStr c.name) ((childrenOf c2cyc "A2").filter (fun c => isFolder c)) =
        [mkFolder "B2" "B2" ["A2", "R2"]] from by decide]
      rw [List.map_cons, List.map_nil]
      rw [show (mkFolder "B2" "B2" ["A2", "R2"]).id = "B2" from rfl]
      rw [ih.2]
      rfl
    · rw [genHtmlF]
      rw [show folderLookup (foldersOf c2cyc) "B2" = some (mkFolder "B2" "B2" ["A2", "R2"]) from by decide]
      dsimp only
      rw [show sortAsc (fun c => lowerStr c.name) ((childrenOf c2cyc "B2").filter (fun c => isFolder c)) =
        [mkFolder "A2" "A2" ["B2"]] from by decide]
      rw [List.map_cons, List.map_nil]
      rw [show (mkFolder "A2" "A2" ["B2"]).id = "A2" from rfl]
      rw [ih.1]
      rfl

/-- C2: refuted in the direction the claim asserts — on the cyclic snapshot
`c2cyc` (a two-folder parent cycle reachable from root R2, which the Graph
Builder accepts: R2 is a root, A2/B2 are neither roots nor orphans), the
depth-first folder-tree serialization and the HTML tree generation never
finish: for every fuel bound both recursions run out of fuel, i.e. the
source's unguarded recursions `print_folder_tree` and `generate_folder_html`
recurse forever. -/
theorem c2_tree_serialization_diverges :
    (∀ fuel : Nat,
        printTreeF (foldersOf c2cyc) (childrenOf c2cyc) fuel "R2" 0 = none)
    ∧ (∀ fuel : Nat, genHtmlF (foldersOf c2cyc) (childrenOf c2cyc) fuel "R2" = none)
    ∧ mkFolder "R2" "R2" [] ∈ rootFolders c2cyc
    ∧ orphanFolders c2cyc = [] := by
  refine ⟨?_, ?_, by decide, by decide⟩
  · intro fuel
    cases fuel with
    | zero => rfl
    | succ n =>
      rw [printTreeF]
      rw [show folderLookup (foldersOf c2cyc) "R2" = some (mkFolder "R2" "R2" []) from by decide]
      dsimp only
      rw [show sortAsc (fun c => c.name) ((childrenOf c2cyc "R2").filter (fun c => isFolder c)) =
        [mkFolder "B2" "B2" ["A2", "R2"]] from by decide]
      rw [List.map_cons, List.map_nil]
      rw [show (mkFolder "B2" "B2" ["A2", "R2"]).id = "B2" from rfl]
      rw [(c2_tree_loop n (0 + 1)).2]
      rfl
  · intro fuel
    cases fuel with
    | zero => rfl
    | succ n =>
      rw [genHtmlF]
      rw [show folderLookup (foldersOf c2cyc) "R2" = some (mkFolder "R2" "R2" []) from by decide]
      dsimp only
      rw [show sortAsc (fun c => lowerStr c.name) ((childrenOf c2cyc "R2").filter (fun c => isFolder c)) =
        [mkFolder "B2" "B2" ["A2", "R2"]] from by decide]
      rw [List.map_cons, List.map_nil]
      rw [show (mkFolder "B2" "B2" ["A2", "R2"]).id = "B2" from rfl]
      rw [(c2_html_loop n).2]
      rfl

/-- Cyclic snapshot for C4 (same shape as C2's, distinct ids). -/
def c4cyc : List Entry :=
  [mkFolder "R4" "R4" [], mkFolder "A4" "A4" ["B4"], mkFolder "B4" "B4" ["A4", "R4"]]

theorem c4_tree_loop : ∀ (n : Nat) (d : Nat),
    printTreeF (foldersOf c4cyc) (childrenOf c4cyc) n "A4" d = none ∧
    printTreeF (foldersOf c4cyc) (childrenOf c4cyc) n "B4" d = none := by
  intro n
  induction n with
  | zero => intro d; exact ⟨rfl, rfl⟩
  | succ n ih =>
    intro d
    constructor
    · rw [printTreeF]
      rw [show folderLookup (foldersOf c4cyc) "A4" = some (mkFolder "A4" "A4" ["B4"]) from by decide]
      dsimp only
      rw [show sortAsc (fun c => c.name) ((childrenOf c4cyc "A4").filter (fun c => isFolder c)) =
        [mkFolder "B4" "B4" ["A4", "R4"]] from by decide]
      rw [List.map_cons, List.map_nil]
      rw [show (mkFolder "B4" "B4" ["A4", "R4"]).id = "B4" from rfl]
      rw [(ih (d + 1)).2]
      rfl
    · rw [printTreeF]
      rw [show folderLookup (foldersOf c4cyc) "B4" = some (mkFolder "B4" "B4" ["A4", "R4"]) from by decide]
      dsimp only
      rw [show sortAsc (fun c => c.name) ((childrenOf c4cyc "B4").filter (fun c => isFolder c)) =
        [mkFolder "A4" "A4" ["B4"]] from by decide]
      rw [List.map_cons, List.map_nil]
      rw [show (mkFolder "A4" "A4" ["B4"]).id = "A4" from rfl]
      rw [(ih (d + 1)).1]
      rfl

/-- C4: refuted for the structure pass — `c4cyc` is a syntactically valid
Entry sequence (all fields well-typed), yet `analyze_structure`'s folder-tree
serialization never completes on it for any fuel bound, so not every analysis
pass runs to completion on every valid snapshot (in CPython the unbounded
recursion surfaces as an uncaught RecursionError).  The remaining passes are
embedded as total functions elsewhere in this file and do terminate. -/
theorem c4_structure_pass_diverges :
    (∀ fuel : Nat, analyzeStructureF c4cyc fuel = none)
    ∧ rootFolders c4cyc = [mkFolder "R4" "R4" []]
    ∧ orphanFolders c4cyc = [] := by
  refine ⟨?_, by decide, by decide⟩
  intro fuel
  rw [analyzeStructureF]
  rw [show sortAsc (fun f => f.name) (rootFolders c4cyc) = [mkFolder "R4" "R4" []] from by decide]
  rw [List.map_cons, List.map_nil]
  rw [show (mkFolder "R4" "R4" []).id = "R4" from rfl]
  have hroot : ∀ n : Nat,
      printTreeF (foldersOf c4cyc) (childrenOf c4cyc) n "R4" 0 = none := by
    intro n
    cases n with
    | zero => rfl
    | succ n =>
      rw [printTreeF]
      rw [show folderLookup (foldersOf c4cyc) "R4" = some (mkFolder "R4" "R4" []) from by decide]
      dsimp only
      rw [show sortAsc (fun c => c.name) ((childrenOf c4cyc "R4").filter (fun c => isFolder c)) =
        [mkFolder "B4" "B4" ["A4", "R4"]] from by decide]
      rw [List.map_cons, List.map_nil]
      rw [show (mkFolder "B4" "B4" ["A4", "R4"]).id = "B4" from rfl]
      rw [(c4_tree_loop n (0 + 1)).2]
      rfl
  rw [hroot fuel]
  rfl

theorem b2rLoop_eq (n : Nat) : b2rLoop n 4 0 0 =
    if n < 1024 then (0, 0)
    else if n < 1024 ^ 2 then (10, 1)
    else if n < 1024 ^ 3 then (20, 2)
    else if n < 1024 ^ 4 then (30, 3)
    else (40, 4) := by
  simp only [b2rLoop]
  norm_num
  split_ifs <;> first | rfl | (exfalso; omega)

/-- C10: the size formatter divides by 1024 while the value is at least 1024,
stepping the unit index through B… TB and capping at TB (index 4, even when
the value still exceeds 1024); for positive n the final unit index i satisfies
`n < 1024^(i+1)` unless capped and `1024^i ≤ n` when any division happened,
and the result is the exact value `n / 1024^i` printed with two decimals
(half-to-even, as float formatting does) plus the unit; zero prints "0 B".
The source computes with binary floating point, which agrees exactly with
this rational embedding for `n < 2^53` (scaling by powers of two is exact). -/
theorem c10_size_format :
    bytesToReadable 0 = "0 B"
    ∧ (∀ n : Nat, 0 < n →
        (b2rLoop n 4 0 0).2 ≤ 4
        ∧ (b2rLoop n 4 0 0).1 = 10 * (b2rLoop n 4 0 0).2
        ∧ ((b2rLoop n 4 0 0).2 < 4 → n < 1024 ^ ((b2rLoop n 4 0 0).2 + 1))
        ∧ (0 < (b2rLoop n 4 0 0).2 → 1024 ^ (b2rLoop n 4 0 0).2 ≤ n)
        ∧ bytesToReadable n =
            fmt2 n (10 * (b2rLoop n 4 0 0).2) ++ " " ++
              sizeUnits.getD (b2rLoop n 4 0 0).2 "")
    ∧ bytesToReadable 1536 = "1.50 KB"
    ∧ bytesToReadable 1073741824 = "1.00 GB"
    ∧ bytesToReadable (2 ^ 50) = "1024.00 TB" := by
  refine ⟨by decide, ?_, by decide, by decide, by decide⟩
  intro n hn
  have h := b2rLoop_eq n
  have hz : ¬ n = 0 := by omega
  by_cases h1 : n < 1024
  · rw [h, if_pos h1]
    refine ⟨by decide, by decide, ?_, fun hc => absurd hc (by decide), ?_⟩
    · intro _; norm_num; omega
    · rw [bytesToReadable, if_neg hz, h, if_pos h1]
      norm_num
  · by_cases h2 : n < 1024 ^ 2
    · rw [h, if_neg h1, if_pos h2]
      refine ⟨by decide, by decide, ?_, ?_, ?_⟩
      · intro _; norm_num at h2 ⊢; omega
      · intro _; norm_num; omega
      · rw [bytesToReadable, if_neg hz, h, if_neg h1, if_pos h2]
        norm_num
    · by_cases h3 : n < 1024 ^ 3
      · rw [h, if_neg h1, if_neg h2, if_pos h3]
        refine ⟨by decide, by decide, ?_, ?_, ?_⟩
        · intro _; norm_num at h3 ⊢; omega
        · intro _; norm_num at h2 ⊢; omega
        · rw [bytesToReadable, if_neg hz, h, if_neg h1, if_neg h2, if_pos h3]
          norm_num
      · by_cases h4 : n < 1024 ^ 4
        · rw [h, if_neg h1, if_neg h2, if_neg h3, if_pos h4]
          refine ⟨by decide, by decide, ?_, ?_, ?_⟩
          · intro _; norm_num at h4 ⊢; omega
          · intro _; norm_num at h3 ⊢; omega
          · rw [bytesToReadable, if_neg hz, h, if_neg h1, if_neg h2, if_neg h3, if_pos h4]
            norm_num
        · rw [h, if_neg h1, if_neg h2, if_neg h3, if_neg h4]
          refine ⟨by decide, by decide, ?_, ?_, ?_⟩
          · intro hc; exact absurd hc (by decide)
          · intro _; norm_num at h4 ⊢; omega
          · rw [bytesToReadable, if_neg hz, h, if_neg h1, if_neg h2, if_neg h3, if_neg h4]
            norm_num

/-- C10: witness applying the general clause at n = 1536. -/
theorem c10_witness :
    bytesToReadable 1536 =
      fmt2 1536 (10 * (b2rLoop 1536 4 0 0).2) ++ " " ++
        sizeUnits.getD (b2rLoop 1536 4 0 0).2 "" :=
  (c10_size_format.2.1 1536 (by decide)).2.2.2.2

/-- One potential-duplicate group: `{'name':…, 'count':…, 'files':…}`. -/
structure DupGroup where
  name : String
  count : Nat
  files : List Entry
deriving DecidableEq, Repr

/-- The groups `find_potential_duplicates` appends to
`self.potential_duplicates`: names with more than one non-folder file,
sorted descending by group size. -/
def potentialDupGroups (entries : List Entry) : List DupGroup :=
  sortDesc (fun g => g.files.length)
    (((keyOrder ((entries.filter (fun e => !isFolder e)).map (fun e => e.name))).map
      (fun nm =>
        (⟨nm,
          ((entries.filter (fun e => !isFolder e)).filter (fun e => e.name == nm)).length,
          (entries.filter (fun e => !isFolder e)).filter (fun e => e.name == nm)⟩ : DupGroup))).filter
      (fun g => 1 < g.files.length))

/-- `defaultdict(int)` increment: `m[k] += 1`. -/
def ddInc (m : List (String × Nat)) (k : String) : List (String × Nat) :=
  match m with
  | [] => [(k, 1)]
  | (k0, c) :: m' => if k0 = k then (k0, c + 1) :: m' else (k0, c) :: ddInc m' k

/-- The mutable attributes of a `DriveAnalyzer` instance that the analysis
reads or writes.  `__init__` clears them once; `load_data` *reassigns*
`files`, `folders`, `largest_files` and `loaded` but only *appends to*
`children_map`, `root_folders`, `orphan_folders` and `file_types`
(`folder_map` is derivable as `foldersOf files`, which `load_data` reassigns
in lockstep with `files`). -/
structure AState where
  files : List Entry
  folders : List Entry
  childrenM : List (String × List Entry)
  rootF : List Entry
  orphanF : List Entry
  fileTypes : List (String × Nat)
  largest : List Entry
  potDups : List DupGroup
  exactDups : List ExactGroup
  oldF : List OldRec
  unusedF : List UnusedRec
  cats : List (String × List Entry)
  loaded : Bool
deriving DecidableEq, Repr

/-- The state `__init__` leaves behind. -/
def initA : AState := ⟨[], [], [], [], [], [], [], [], [], [], [], [], false⟩

/-- `load_data` on an already constructed analyzer: note the appends. -/
def loadData (snapshot : List Entry) (st : AState) : AState :=
  ⟨snapshot,
   foldersOf snapshot,
   buildChildrenFrom st.childrenM snapshot,
   st.rootF ++ rootFolders snapshot,
   st.orphanF ++ orphanFolders snapshot,
   snapshot.foldl (fun m e => if isFolder e then m
     else ddInc m ((e.mimeType).getD "unknown")) st.fileTypes,
   (sortDesc (fun e => (e.size).getD 0)
     (snapshot.filter (fun e => !isFolder e && e.size.isSome))).take 100,
   st.potDups, st.exactDups, st.oldF, st.unusedF, st.cats, true⟩

/-- `find_potential_duplicates` appends this run's groups without resetting. -/
def passPotDups (st : AState) : AState :=
  { st with potDups := st.potDups ++ potentialDupGroups st.files }

/-- `find_exact_duplicates` reassigns `self.exact_duplicates`. -/
def passExactDups (st : AState) : AState :=
  { st with exactDups := exactDupGroups st.files }

/-- `categorize_files` reassigns `self.categories`. -/
def passCategorize (st : AState) : AState :=
  { st with cats := categorizeFiles st.files }

/-- `find_old_files()` (default threshold 365) reassigns `self.old_files`. -/
def passOldFiles (now : Int) (st : AState) : AState :=
  { st with oldF := oldFilesOf st.files now 365 }

/-- `find_unused_files` reassigns `self.unused_files`. -/
def passUnused (now : Int) (st : AState) : AState :=
  { st with unusedF := unusedOf st.files now }

/-- The aggregate statistics object `generate_statistics` writes. -/
structure Stats where
  totalFiles : Nat
  totalFolders : Nat
  totalSizeBytes : Nat
  totalSizeReadable : String
  maxFolderDepth : Nat
  rootFoldersCount : Nat
  orphanFoldersCount : Nat
  fileTypes : List (String × Nat)
  categories : List (String × Nat)
  duplicateCount : Nat
  exactDuplicateCount : Nat
  oldFilesCount : Nat
  unusedFilesCount : Nat
  crowdedFolders : List (String × Nat × String)
  largestFiles : List (String × Nat × String × String)
deriving DecidableEq, Repr

/-- `generate_statistics` (a pure read of analyzer state). -/
def genStats (st : AState) : Stats :=
  ⟨st.files.length - st.folders.length,
   st.folders.length,
   (st.files.filterMap (fun e => e.size)).sum,
   bytesToReadable ((st.files.filterMap (fun e => e.size)).sum),
   st.folders.foldl (fun acc f => max acc (countSlash (getFolderPath st.folders f.id []))) 0,
   st.rootF.length,
   st.orphanF.length,
   st.fileTypes,
   st.cats.map (fun cf => (cf.1, cf.2.length)),
   st.potDups.length,
   st.exactDups.length,
   st.oldF.length,
   st.unusedF.length,
   (sortDesc (fun t => t.2.1)
     ((keyOrder (st.folders.map (fun f => f.id))).map (fun fid =>
       (((folderLookup st.folders fid).map (fun f => f.name)).getD "",
        ((ddLookup st.childrenM fid).filter (fun e => !isFolder e)).length,
        fid)))).take 20,
   (st.largest.take 20).map (fun f =>
     (f.name, (f.size).getD 0, bytesToReadable ((f.size).getD 0), f.id))⟩

/-- One `analyze_all()` call on an analyzer in state `st`:
`load_data` runs unconditionally (so every later pass sees `loaded = True`
and skips its lazy-load guard), then the state-changing passes run in source
order.  `analyze_structure`, `generate_statistics`, `generate_suggestions`,
`generate_reorganization_plan` and `create_visualization` only read analyzer
state (the reorganization plan's conditional `categorize_files` re-run would
reassign the same value), so they do not appear in the state transformer. -/
def analyzeAllState (snapshot : List Entry) (now : Int) (st : AState) : AState :=
  passUnused now (passOldFiles now (passCategorize (passExactDups (passPotDups
    (loadData snapshot st)))))

/-- Snapshot for the C9 counterexample: a single root folder. -/
def c9ex : List Entry := [mkFolder "R9" "Root9" []]

/-- C9: counterexample.  Running the full analysis twice on the same analyzer
over the identical snapshot (same reference time 0) does not reproduce the
statistics: `load_data` appends to `root_folders` without clearing it, so the
second run reports 2 root folders instead of 1 and the aggregate statistics
differ. -/
theorem c9_counterexample :
    (genStats (analyzeAllState c9ex 0 initA)).rootFoldersCount = 1
    ∧ (genStats (analyzeAllState c9ex 0 (analyzeAllState c9ex 0 initA))).rootFoldersCount = 2
    ∧ genStats (analyzeAllState c9ex 0 (analyzeAllState c9ex 0 initA)) ≠
        genStats (analyzeAllState c9ex 0 initA) := by decide

/-- C9 (amended): on a fresh analyzer the full analysis is a pure function of
snapshot and reference time (two fresh runs agree, and the first run's root
list is exactly the Graph Builder's classification), but a second
`analyze_all` on the same instance appends a second copy of every root
folder, doubling the reported root-folder count — so re-running on the same
analyzer is not idempotent, for any snapshot with at least one root. -/
theorem c9_rerun_state_doubling :
    (∀ (s : List Entry) (t : Int), analyzeAllState s t initA = analyzeAllState s t initA)
    ∧ (∀ (s : List Entry) (t : Int), (analyzeAllState s t initA).rootF = rootFolders s)
    ∧ (∀ (s : List Entry) (t : Int),
        (analyzeAllState s t (analyzeAllState s t initA)).rootF =
          rootFolders s ++ rootFolders s)
    ∧ (∀ (s : List Entry) (t : Int),
        (genStats (analyzeAllState s t (analyzeAllState s t initA))).rootFoldersCount =
          2 * (genStats (analyzeAllState s t initA)).rootFoldersCount) := by
  refine ⟨fun _ _ => rfl, ?_, ?_, ?_⟩
  · intro s t
    simp [analyzeAllState, passUnused, passOldFiles, passCategorize, passExactDups,
      passPotDups, loadData, initA]
  · intro s t
    simp [analyzeAllState, passUnused, passOldFiles, passCategorize, passExactDups,
      passPotDups, loadData, initA]
  · intro s t
    simp [analyzeAllState, passUnused, passOldFiles, passCategorize, passExactDups,
      passPotDups, loadData, initA, genStats, Nat.two_mul]
